import Mathlib

/-
Verification of the contract compatibility classifier and version-bump
policy engine of scripts/contracts-check-diff.mjs.

The embedding models the JSON values the script manipulates as a tagged
recursive value type, the schema documents as a structure with optional
properties and required members, and each function of the script
(classify, rank, bumpFrom, parse, cmp, the required fold and the final
decision block) as a Lean function translated line by line from the
source. Member access on a JSON null throws a TypeError in JavaScript,
so the classifier is embedded as an Except-valued function whose error
case is exactly that throw.
-/

deriving instance DecidableEq for Except

namespace ContractsCheckDiff

mutual

/-- A JSON value as produced by JSON.parse: null, booleans, numbers,
strings, arrays and objects with insertion-ordered keys. Numbers are
modelled as integers, which covers every value appearing in this
development; objects keep their key order, so structural equality of two
of these values coincides with equality of their JSON.stringify
serialisations, which is how the source compares shapes. -/
inductive Js where
  | null : Js
  | bool : Bool → Js
  | num : Int → Js
  | str : String → Js
  | arr : JsList → Js
  | obj : JsObj → Js
deriving DecidableEq, Repr

/-- A sequence of JSON values, the payload of a JSON array. -/
inductive JsList where
  | nil : JsList
  | cons : Js → JsList → JsList
deriving DecidableEq, Repr

/-- An insertion-ordered association of string keys to JSON values, the
payload of a JSON object. -/
inductive JsObj where
  | nil : JsObj
  | cons : String → Js → JsObj → JsObj
deriving DecidableEq, Repr

end

end ContractsCheckDiff

namespace ContractsCheckDiff

/-- The elements of a JSON array as a Lean list. -/
def JsList.toList : JsList → List Js
  | JsList.nil => []
  | JsList.cons x xs => x :: xs.toList

/-- First binding of a key in a JSON object, as JavaScript property
lookup on an object whose keys are unique. -/
def JsObj.lookup : JsObj → String → Option Js
  | JsObj.nil, _ => Option.none
  | JsObj.cons k v rest, key => if k = key then Option.some v else rest.lookup key

/-- A schema document as consumed by classify: an object with optional
members properties (a mapping from field name to field schema) and
required (an array of field names). The source reads them with
oldJs.properties ?? \x7b\x7d and oldJs.required ?? [], so absence is
modelled with Option and defaulted to empty where the source defaults. -/
structure SchemaDoc where
  properties : Option (List (String × Js))
  required : Option (List String)
deriving DecidableEq, Repr

/-- Severity of a schema change, the codomain of classify and the domain
of the rank function of the source. -/
inductive Severity where
  | none : Severity
  | patch : Severity
  | minor : Severity
  | major : Severity
deriving DecidableEq, Fintype, Repr

/-- Classification of an actual version bump, the codomain of cmp. -/
inductive Bump where
  | invalid : Bump
  | noneOrDown : Bump
  | patch : Bump
  | minor : Bump
  | major : Bump
deriving DecidableEq, Fintype, Repr

/-- Object.keys of a property mapping: the own key list. JavaScript
lists integer-like keys first in ascending numeric order and the rest in
insertion order; the embedding keeps plain insertion order, which can
only reorder which of two per-key signals fires first and never changes
any of the results proved below. -/
def keysOf (l : List (String × Js)) : List String := l.map Prod.fst

/-- Own-key membership in a property mapping: membership in the keys
that Object.keys reports, and the guard that distinguishes an own
property read from a read that falls through to the prototype. -/
def hasKey (l : List (String × Js)) (k : String) : Bool := (keysOf l).contains k

/-- The twelve property names of Object.prototype, all of them visible
to the JavaScript in operator on every object built by JSON.parse:
eleven built-in function members plus the accessor member giving the
prototype itself. -/
def protoKeys : List String :=
  ["constructor", "__defineGetter__", "__defineSetter__", "hasOwnProperty",
   "__lookupGetter__", "__lookupSetter__", "isPrototypeOf", "propertyIsEnumerable",
   "toString", "valueOf", "__proto__", "toLocaleString"]

/-- The JavaScript test k in obj on a parsed property mapping: the in
operator walks the prototype chain, so it sees the own keys of the
object and additionally every property name of Object.prototype. -/
def jsIn (l : List (String × Js)) (k : String) : Bool :=
  (keysOf l).contains k || protoKeys.contains k

/-- Property read obj[k] on a mapping whose key is known to be present;
the default value is never reached on the paths where the source reads
a property, because every read is guarded by a key-membership test. -/
def lookupD (l : List (String × Js)) (k : String) : Js := (l.lookup k).getD Js.null

/-- Whether a JSON value is an object or an array, the values JavaScript
compares by reference identity inside a Set. -/
def Js.isComposite : Js → Bool
  | Js.arr _ => true
  | Js.obj _ => true
  | _ => false

/-- SameValueZero comparison between an element of the old enum array and
an element of the new enum array, as used by Set.has in the source.
Primitive values compare structurally; composite values compare by
reference identity, and the two documents come from two distinct
JSON.parse calls, so a composite value of one is never identical to a
value of the other. -/
def svzCross (a b : Js) : Bool := !a.isComposite && !b.isComposite && decide (a = b)

/-- Insertion step of new Set(xs) for an array xs of sibling elements of
one parsed document: composite elements are pairwise distinct objects and
are always inserted; primitive elements deduplicate structurally. -/
def setInsert (acc : List Js) (v : Js) : List Js :=
  if v.isComposite then acc ++ [v]
  else if acc.contains v then acc else acc ++ [v]

/-- Size of new Set(xs), the size member the widening test of the source
compares. -/
def jsSetSize (xs : List Js) : Nat := (xs.foldl setInsert []).length

/-- JavaScript member access v.enum as performed by the source on a field
schema: throws a TypeError when the receiver is null, yields the member
value on an object, and undefined (here Option.none) on any other
receiver. -/
def jsMember (v : Js) (k : String) : Except String (Option Js) :=
  match v with
  | Js.null => Except.error ("TypeError: cannot read properties of null")
  | Js.obj kvs => Except.ok (kvs.lookup k)
  | _ => Except.ok Option.none

/-- Array.isArray applied to the result of a member access: yields the
element list exactly when the member exists and is an array. -/
def asArray : Option Js → Option (List Js)
  | Option.some (Js.arr xs) => Option.some xs.toList
  | _ => Option.none

/-- Body of the shared-property loop of classify for one shared key, with
o and n the two field schemas. Mirrors the source: when the stringify
serialisations agree the property is skipped; otherwise both enum members
are read (a throw on a null schema propagates), and when both are arrays
whose old elements all occur in the new set and whose set sizes do not
shrink the change is skipped as enum widening, else the property reports
a major change. -/
def checkShared1 (o n : Js) : Except String Bool :=
  if o = n then Except.ok false
  else
    match jsMember o ("enum") with
    | Except.error e => Except.error e
    | Except.ok oe =>
      match jsMember n ("enum") with
      | Except.error e => Except.error e
      | Except.ok ne =>
        match asArray oe, asArray ne with
        | Option.some oxs, Option.some nxs =>
          if oxs.all (fun v => nxs.any (fun w => svzCross v w))
              && decide (jsSetSize oxs ≤ jsSetSize nxs)
          then Except.ok false
          else Except.ok true
        | _, _ => Except.ok true

/-- Shared-key comparison when the key is in the old mapping only via
the prototype chain: the old-side read returns the inherited value from
Object.prototype. For the eleven function-valued prototype members
JSON.stringify yields undefined, which differs from the serialisation of
every parsed value, their enum member is undefined, and they are never
null, so the comparison always reports major without throwing. Reading
the accessor member proto yields Object.prototype itself, whose
serialisation is the empty object because all its own properties are
non-enumerable: that comparison is skipped when the new value is an
empty object and reports major otherwise, since the enum member of
Object.prototype is undefined and the widening exemption cannot apply. -/
def protoShared (k : String) (nv : Js) : Bool :=
  if k = "__proto__" then !(nv == Js.obj JsObj.nil) else true

/-- The shared-property loop of classify over the own keys of the new
property mapping, in order. The source guards each key with the in
operator, which walks the prototype chain: a key that is neither an own
key of the old mapping nor a prototype name is skipped; an own key runs
the stringify-and-enum check on the two own values; a key present only
through the prototype runs the same check against the inherited value,
embedded by protoShared. The first key whose check reports a change (or
throws) ends the loop. -/
def scanShared (oP nP : List (String × Js)) : List String → Except String Bool
  | [] => Except.ok false
  | k :: ks =>
    if jsIn oP k then
      if hasKey oP k then
        match checkShared1 (lookupD oP k) (lookupD nP k) with
        | Except.error e => Except.error e
        | Except.ok true => Except.ok true
        | Except.ok false => scanShared oP nP ks
      else
        if protoShared k (lookupD nP k) then Except.ok true
        else scanShared oP nP ks
    else scanShared oP nP ks

/-- The tail of classify after the two property loops: major when a name
of the new required set is not in the old required set; then, for a
non-empty list of added property names — the own keys of the new mapping
that the in operator does not find in the old mapping, its prototype
included — major when one of the added names is in the new required set
and minor otherwise; else patch. -/
def afterScan (oP nP : List (String × Js)) (oR nR : List String) : Severity :=
  if nR.any (fun k => !oR.contains k) then Severity.major
  else
    let added := (keysOf nP).filter (fun k => !jsIn oP k)
    if !added.isEmpty then
      if added.any (fun k => nR.contains k) then Severity.major
      else Severity.minor
    else Severity.patch

/-- The classify function of the source, translated clause by clause:
minor for an absent old document; major when an own key of the old
mapping is missing from the new mapping under the in test, which walks
the prototype chain and therefore never reports a prototype name such as
toString as removed; the shared-property scan with the enum widening
exemption (propagating the TypeError a null field schema would throw);
then the required and added-property checks of afterScan. -/
def classify (oldJs : Option SchemaDoc) (newJs : SchemaDoc) : Except String Severity :=
  match oldJs with
  | Option.none => Except.ok Severity.minor
  | Option.some oldDoc =>
    let oP := oldDoc.properties.getD []
    let nP := newJs.properties.getD []
    let oR := oldDoc.required.getD []
    let nR := newJs.required.getD []
    if (keysOf oP).any (fun k => !jsIn nP k) then Except.ok Severity.major
    else
      match scanShared oP nP (keysOf nP) with
      | Except.error e => Except.error e
      | Except.ok true => Except.ok Severity.major
      | Except.ok false => Except.ok (afterScan oP nP oR nR)

/-- The rank function of the source: the numeric position of a severity
in the order none, patch, minor, major. -/
def rank : Severity → Nat
  | Severity.none => 0
  | Severity.patch => 1
  | Severity.minor => 2
  | Severity.major => 3

/-- The bumpFrom function of the source: keeps the operand of larger
rank, preferring the first on ties. -/
def bumpFrom (a b : Severity) : Severity := if rank b ≤ rank a then a else b

/-- The required fold of the source: starting from none, every per-file
severity is folded in with bumpFrom. -/
def aggregate (l : List Severity) : Severity := l.foldl bumpFrom Severity.none

/-- The regex dot: any character other than a line terminator. -/
def isRegexDot (c : Char) : Bool :=
  c ≠ '\n' && c ≠ '\r' && c ≠ '\u2028' && c ≠ '\u2029'

/-- One capture group of the version regex of the source. The source
regex literal is written with doubled backslashes, so each occurrence of
backslash backslash d denotes an escaped literal backslash character
followed by the letter d, and the plus quantifier binds to the letter d
alone: the group matches one literal backslash followed by one or more
letters d, and the capture includes the backslash. Returns the captured
characters and the remaining input. -/
def matchGroup : List Char → Option (List Char × List Char)
  | '\\' :: rest =>
    let ds := rest.takeWhile (fun c => c = 'd')
    if ds.isEmpty then Option.none
    else Option.some ('\\' :: ds, rest.dropWhile (fun c => c = 'd'))
  | _ => Option.none

/-- One separator of the version regex of the source: an escaped literal
backslash followed by the regex dot (the unescaped period matches any
character other than a line terminator). -/
def matchSep : List Char → Option (List Char)
  | '\\' :: c :: rest => if isRegexDot c then Option.some rest else Option.none
  | _ => Option.none

/-- The version triple built by parse: the three capture groups coerced
to numbers with unary plus. A component that is not a number (NaN) is
modelled as Option.none; every capture of this regex starts with a
backslash, so in fact every successfully parsed component is NaN. -/
structure VerTriple where
  M : Option Int
  m : Option Int
  p : Option Int
deriving DecidableEq, Repr

/-- The value of a nonempty string of decimal digits, else Option.none. -/
def digitsVal (cs : List Char) : Option Nat :=
  if cs.isEmpty then Option.none
  else if cs.all Char.isDigit then
    Option.some (cs.foldl (fun a c => a * 10 + (c.toNat - 48)) 0)
  else Option.none

/-- JavaScript unary plus on a string, on the fragment of inputs that can
arise here: an all-whitespace string coerces to zero, an optionally
signed nonempty digit string coerces to its decimal value, and anything
else (in particular any string containing a backslash, which is what all
captures of parse look like) coerces to NaN, modelled as Option.none. -/
def jsPlus (s : String) : Option Int :=
  let t := s.trim
  if t.isEmpty then Option.some 0
  else
    match t.data with
    | '+' :: rest => (digitsVal rest).map Int.ofNat
    | '-' :: rest => (digitsVal rest).map (fun v => -(v : Int))
    | cs => (digitsVal cs).map Int.ofNat

/-- The parse function of the source: matches the head of the input
against group, separator, group, separator, group, and on success builds
the triple of the three captures coerced with unary plus; on a failed
match returns Option.none (null in the source). -/
def parse (v : String) : Option VerTriple :=
  match matchGroup v.data with
  | Option.none => Option.none
  | Option.some (g1, r1) =>
    match matchSep r1 with
    | Option.none => Option.none
    | Option.some r2 =>
      match matchGroup r2 with
      | Option.none => Option.none
      | Option.some (g2, r3) =>
        match matchSep r3 with
        | Option.none => Option.none
        | Option.some r4 =>
          match matchGroup r4 with
          | Option.none => Option.none
          | Option.some (g3, _) =>
            Option.some ⟨jsPlus (String.mk g1), jsPlus (String.mk g2), jsPlus (String.mk g3)⟩

/-- JavaScript strict greater-than between two possibly-NaN numbers: any
comparison against NaN is false. -/
def numGt (a b : Option Int) : Bool :=
  match a, b with
  | Option.some x, Option.some y => decide (y < x)
  | _, _ => false

/-- JavaScript strict equality between two possibly-NaN numbers: NaN is
equal to nothing, itself included. -/
def numEq (a b : Option Int) : Bool :=
  match a, b with
  | Option.some x, Option.some y => decide (x = y)
  | _, _ => false

/-- The cmp function of the source: invalid when either side fails to
parse, else the first strictly increased component in major, minor,
patch order, else none-or-down. -/
def cmp (oldV newV : String) : Bump :=
  match parse oldV, parse newV with
  | Option.some o, Option.some n =>
    if numGt n.M o.M then Bump.major
    else if numEq n.M o.M && numGt n.m o.m then Bump.minor
    else if numEq n.M o.M && numEq n.m o.m && numGt n.p o.p then Bump.patch
    else Bump.noneOrDown
  | _, _ => Bump.invalid

/-- Outcome of the final decision block: ok exits with success, fail
exits with failure. -/
inductive Status where
  | pass : Status
  | fail : Status
deriving DecidableEq, Repr

/-- The observable result of the decision block: the exit status, the
message passed to ok or fail, and whether the warning branch ran. -/
structure Verdict where
  status : Status
  message : String
  warned : Bool
deriving DecidableEq, Repr

/-- The four-way decision block at the end of the source, translated
branch by branch. The required severity is always one of the four
enumeration values, so the chain of equality tests is exhaustive and the
last branch is the major row. -/
def Decide (required : Severity) (bump : Bump) : Verdict :=
  if required = Severity.none then
    { status := Status.pass
      message := "no schema changes"
      warned := !(bump == Bump.noneOrDown || bump == Bump.patch) }
  else if required = Severity.patch then
    if bump == Bump.patch || bump == Bump.minor || bump == Bump.major then
      { status := Status.pass, message := "patch ok", warned := false }
    else
      { status := Status.fail, message := "patch change needs version bump", warned := false }
  else if required = Severity.minor then
    if bump == Bump.minor || bump == Bump.major then
      { status := Status.pass, message := "minor ok", warned := false }
    else
      { status := Status.fail, message := "additive change needs minor bump", warned := false }
  else
    if bump == Bump.major then
      { status := Status.pass, message := "major ok", warned := false }
    else
      { status := Status.fail, message := "breaking change needs MAJOR bump", warned := false }

end ContractsCheckDiff

namespace ContractsCheckDiff

/- Helper lemmas about the embedded functions. -/

/-- A property whose shape is unchanged is skipped by the shared scan. -/
theorem checkShared1_self (x : Js) : checkShared1 x x = Except.ok false := by
  simp [checkShared1]

/-- The shared scan reports no change when every key the in test finds
in the old mapping is an own key there whose per-key check passes. -/
theorem scanShared_ok_of (oP nP : List (String × Js)) (ks : List String)
    (h : ∀ k ∈ ks, jsIn oP k = true →
      hasKey oP k = true ∧
      checkShared1 (lookupD oP k) (lookupD nP k) = Except.ok false) :
    scanShared oP nP ks = Except.ok false := by
  induction ks with
  | nil => rfl
  | cons k ks ih =>
    simp only [scanShared]
    by_cases hj : jsIn oP k = true
    · obtain ⟨hown, hchk⟩ := h k (by simp) hj
      rw [if_pos hj, if_pos hown, hchk]
      exact ih (fun j hjm => h j (by simp [hjm]))
    · rw [if_neg hj]
      exact ih (fun j hjm => h j (by simp [hjm]))

/-- No element of a list fails a containment test against that list. -/
theorem any_not_contains_self (l : List String) : (l.any fun k => !l.contains k) = false := by
  simp

/-- An own key always passes the in test, whose first disjunct is own
membership. -/
theorem jsIn_of_mem_keys (l : List (String × Js)) (k : String) (h : k ∈ keysOf l) :
    jsIn l k = true := by
  simp [jsIn, h]

/-- No own key of a mapping fails the in test on that mapping. -/
theorem any_not_jsIn_self (l : List (String × Js)) :
    ((keysOf l).any fun k => !jsIn l k) = false := by
  rw [List.any_eq_false]
  intro k hk
  simp [jsIn_of_mem_keys l k hk]

/-- Filtering the own keys of a mapping by failure of the in test on
that mapping leaves nothing. -/
theorem filter_not_jsIn_self (l : List (String × Js)) :
    ((keysOf l).filter fun k => !jsIn l k) = [] := by
  simp only [List.filter_eq_nil_iff]
  intro k hk
  simp [jsIn_of_mem_keys l k hk]

/-- The tail of classify yields patch when both property mappings have
the same key list and the required set is unchanged. -/
theorem afterScan_same_keys (oP nP : List (String × Js)) (r : List String)
    (hk : keysOf oP = keysOf nP) : afterScan oP nP r r = Severity.patch := by
  unfold afterScan
  rw [any_not_contains_self]
  dsimp only
  have hfil : (keysOf nP).filter (fun k => !jsIn oP k) = [] := by
    rw [← hk]
    exact filter_not_jsIn_self oP
  simp [hfil]

/-- The tail of classify never yields the severity none. -/
theorem afterScan_ne_none (oP nP : List (String × Js)) (oR nR : List String) :
    afterScan oP nP oR nR ≠ Severity.none := by
  unfold afterScan
  split
  · simp
  · dsimp only
    split
    · split <;> simp
    · simp

/-- With a present old document, classify never yields the severity
none. -/
theorem classify_present_ne_none (o n : SchemaDoc) :
    classify (Option.some o) n ≠ Except.ok Severity.none := by
  intro h
  simp only [classify] at h
  split at h
  · simp at h
  · split at h
    · simp at h
    · simp at h
    · exact afterScan_ne_none _ _ _ _ (Except.ok.inj h)

/-- With a present old document, any severity classify yields is patch,
minor or major. -/
theorem classify_present_result (o n : SchemaDoc) (s : Severity)
    (h : classify (Option.some o) n = Except.ok s) :
    s = Severity.patch ∨ s = Severity.minor ∨ s = Severity.major := by
  cases s
  · exact absurd h (classify_present_ne_none o n)
  · exact Or.inl rfl
  · exact Or.inr (Or.inl rfl)
  · exact Or.inr (Or.inr rfl)

/-- Folding bumpFrom from none starts the fold at the first element. -/
theorem bumpFrom_none_left (a : Severity) : bumpFrom Severity.none a = a := by
  cases a <;> rfl

/-- The rank of the left operand never exceeds the rank of the fold
step. -/
theorem rank_le_bumpFrom_left : ∀ a b : Severity, rank a ≤ rank (bumpFrom a b) := by decide

/-- The rank of the right operand never exceeds the rank of the fold
step. -/
theorem rank_le_bumpFrom_right : ∀ a b : Severity, rank b ≤ rank (bumpFrom a b) := by decide

/-- The fold step commutes on the right, which makes the required fold
insensitive to the order of the file records. -/
theorem bumpFrom_right_comm :
    ∀ x y z : Severity, bumpFrom (bumpFrom z x) y = bumpFrom (bumpFrom z y) x := by decide

/-- The fold step always returns one of its operands. -/
theorem bumpFrom_cases (a b : Severity) : bumpFrom a b = a ∨ bumpFrom a b = b := by
  unfold bumpFrom; split
  · exact Or.inl rfl
  · exact Or.inr rfl

/-- The fold of bumpFrom returns its accumulator or one of the list
elements. -/
theorem foldl_bumpFrom_mem (t : List Severity) :
    ∀ acc : Severity, t.foldl bumpFrom acc = acc ∨ t.foldl bumpFrom acc ∈ t := by
  induction t with
  | nil => intro acc; exact Or.inl rfl
  | cons b t ih =>
    intro acc
    simp only [List.foldl_cons]
    rcases ih (bumpFrom acc b) with h | h
    · rcases bumpFrom_cases acc b with h2 | h2
      · exact Or.inl (h.trans h2)
      · right
        rw [h, h2]
        exact List.mem_cons_self b t
    · exact Or.inr (List.mem_cons_of_mem b h)

/-- The fold of bumpFrom never drops below the rank of its
accumulator. -/
theorem rank_le_foldl_bumpFrom (t : List Severity) :
    ∀ acc : Severity, rank acc ≤ rank (t.foldl bumpFrom acc) := by
  induction t with
  | nil => intro acc; exact Nat.le_refl _
  | cons b t ih =>
    intro acc
    exact Nat.le_trans (rank_le_bumpFrom_left acc b) (ih (bumpFrom acc b))

/-- The fold of bumpFrom dominates the rank of every list element. -/
theorem rank_mem_le_foldl_bumpFrom (t : List Severity) :
    ∀ (acc s : Severity), s ∈ t → rank s ≤ rank (t.foldl bumpFrom acc) := by
  induction t with
  | nil => intro acc s h; cases h
  | cons b t ih =>
    intro acc s h
    simp only [List.foldl_cons]
    rcases List.mem_cons.mp h with h | h
    · subst h
      exact Nat.le_trans (rank_le_bumpFrom_right acc s) (rank_le_foldl_bumpFrom t _)
    · exact ih _ s h

/-- A member access on any non-null value does not throw. -/
theorem jsMember_isOk (v : Js) (k : String) (h : v ≠ Js.null) :
    ∃ r, jsMember v k = Except.ok r := by
  cases v
  · exact absurd rfl h
  all_goals exact ⟨_, rfl⟩

/-- The per-key shared check does not throw when neither field schema is
the JSON null. -/
theorem checkShared1_isOk (o n : Js) (ho : o ≠ Js.null) (hn : n ≠ Js.null) :
    (checkShared1 o n).isOk = true := by
  obtain ⟨oe, hoe⟩ := jsMember_isOk o ("enum") ho
  obtain ⟨ne2, hne2⟩ := jsMember_isOk n ("enum") hn
  simp only [checkShared1, hoe, hne2]
  split
  · rfl
  · split
    · split <;> rfl
    · rfl

/-- An Except value that is ok carries some payload. -/
theorem isOk_exists {x : Except String Bool} (h : x.isOk = true) : ∃ b, x = Except.ok b := by
  cases x
  · simp [Except.isOk, Except.toBool] at h
  · exact ⟨_, rfl⟩

/-- The shared scan does not throw when none of its per-key checks
throw. -/
theorem scanShared_isOk (oP nP : List (String × Js)) (ks : List String)
    (h : ∀ k ∈ ks, hasKey oP k = true →
      (checkShared1 (lookupD oP k) (lookupD nP k)).isOk = true) :
    (scanShared oP nP ks).isOk = true := by
  induction ks with
  | nil => rfl
  | cons k ks ih =>
    simp only [scanShared]
    by_cases hj : jsIn oP k = true
    · rw [if_pos hj]
      by_cases hk : hasKey oP k = true
      · rw [if_pos hk]
        obtain ⟨b, hb⟩ := isOk_exists (h k (by simp) hk)
        rw [hb]
        cases b
        · exact ih (fun j hjm => h j (by simp [hjm]))
        · rfl
      · rw [if_neg hk]
        split
        · rfl
        · exact ih (fun j hjm => h j (by simp [hjm]))
    · rw [if_neg hj]
      exact ih (fun j hjm => h j (by simp [hjm]))

/-- A guarded property read returns a binding of the mapping. -/
theorem lookupD_mem (l : List (String × Js)) (k : String) (h : hasKey l k = true) :
    (k, lookupD l k) ∈ l := by
  induction l with
  | nil => simp [hasKey, keysOf] at h
  | cons p t ih =>
    obtain ⟨k0, v0⟩ := p
    by_cases hk : k0 = k
    · subst hk
      simp [lookupD, List.lookup]
    · have h2 : hasKey t k = true := by
        simp [hasKey, keysOf] at h ⊢
        rcases h with h | h
        · exact absurd h.symm hk
        · exact h
      have hk2 : (k == k0) = false := by
        simp [Ne.symm hk]
      have h3 : lookupD ((k0, v0) :: t) k = lookupD t k := by
        simp [lookupD, List.lookup, hk2]
      rw [h3]
      exact List.mem_cons_of_mem _ (ih h2)

/-- A key of the key list passes the membership test. -/
theorem hasKey_of_mem_keys (l : List (String × Js)) (k : String) (h : k ∈ keysOf l) :
    hasKey l k = true := by
  simpa [hasKey] using h

/-- A property read in two mappings that differ in the value of a single
key either agrees or reads exactly the two distinguished values. -/
theorem lookupD_append_middle (pre post : List (String × Js)) (k : String) (o n : Js)
    (j : String) :
    lookupD (pre ++ (k, o) :: post) j = lookupD (pre ++ (k, n) :: post) j ∨
    (lookupD (pre ++ (k, o) :: post) j = o ∧ lookupD (pre ++ (k, n) :: post) j = n) := by
  induction pre with
  | nil =>
    simp only [List.nil_append, lookupD, List.lookup]
    cases hjk : (j == k)
    · left; rfl
    · right; exact ⟨rfl, rfl⟩
  | cons p t ih =>
    obtain ⟨k0, v0⟩ := p
    simp only [List.cons_append, lookupD, List.lookup]
    cases hjk : (j == k0)
    · simpa [lookupD, List.lookup, hjk] using ih
    · left; rfl

/-- A shape change covered by the enum widening exemption is skipped by
the per-key shared check. -/
theorem checkShared1_widen (o n : Js) (oxs nxs : JsList)
    (ho : jsMember o ("enum") = Except.ok (Option.some (Js.arr oxs)))
    (hn : jsMember n ("enum") = Except.ok (Option.some (Js.arr nxs)))
    (hsup : (oxs.toList.all fun v => nxs.toList.any fun w => svzCross v w) = true)
    (hsize : jsSetSize oxs.toList ≤ jsSetSize nxs.toList) :
    checkShared1 o n = Except.ok false := by
  by_cases he : o = n
  · rw [he]; exact checkShared1_self n
  · simp only [checkShared1, if_neg he, ho, hn, asArray]
    simp [hsup, hsize]

/- The claims. -/

/-- C1. The claim states that cmp classifies two version strings by the
first differing component in major, minor, patch order and that parse
accepts any string beginning with three dot-separated digit runs. The
source contradicts this: its regex literal doubles every backslash, so
the pattern matches a literal backslash followed by letters d rather
than digit runs. This theorem evaluates the embedded code at the inputs
of the claim: parse rejects 1.2.3 and 1.2.3-beta, accepts a
backslash-d-shaped string, and cmp returns invalid on every version pair
of the claim instead of the claimed classifications. -/
theorem C1_semver : parse ("1.2.3") = Option.none ∧
    parse ("1.2.3-beta") = Option.none ∧
    parse ("x.y.z") = Option.none ∧
    (parse ("\\d\\.\\d\\.\\d")).isSome = true ∧
    cmp ("1.2.3") ("2.0.0") = Bump.invalid ∧
    cmp ("1.2.3") ("1.3.0") = Bump.invalid ∧
    cmp ("1.2.3") ("1.2.4") = Bump.invalid ∧
    cmp ("1.2.3") ("1.2.3") = Bump.invalid ∧
    cmp ("1.2.3") ("1.2.2") = Bump.invalid ∧
    cmp ("x.y.z") ("1.0.0") = Bump.invalid := by decide

/-- C2. For every actual bump, the decision block passes required none
unconditionally and warns exactly when the bump is neither none-or-down
nor patch; passes required patch exactly for bump patch, minor or major
and otherwise fails with the patch message; passes required minor
exactly for minor or major and otherwise fails with the additive
message; passes required major exactly for major and otherwise fails
with the breaking-change message; and an invalid bump fails at every
required level except none, where it passes with a warning. -/
theorem C2_matrix (b : Bump) :
    (Decide Severity.none b).status = Status.pass ∧
    (Decide Severity.none b).warned = !(b == Bump.noneOrDown || b == Bump.patch) ∧
    Decide Severity.patch b =
      (if b == Bump.patch || b == Bump.minor || b == Bump.major then
        { status := Status.pass, message := "patch ok", warned := false }
      else
        { status := Status.fail, message := "patch change needs version bump", warned := false }) ∧
    Decide Severity.minor b =
      (if b == Bump.minor || b == Bump.major then
        { status := Status.pass, message := "minor ok", warned := false }
      else
        { status := Status.fail, message := "additive change needs minor bump", warned := false }) ∧
    Decide Severity.major b =
      (if b == Bump.major then
        { status := Status.pass, message := "major ok", warned := false }
      else
        { status := Status.fail, message := "breaking change needs MAJOR bump", warned := false }) ∧
    (Decide Severity.patch Bump.invalid).status = Status.fail ∧
    (Decide Severity.minor Bump.invalid).status = Status.fail ∧
    (Decide Severity.major Bump.invalid).status = Status.fail ∧
    (Decide Severity.none Bump.invalid).status = Status.pass ∧
    (Decide Severity.none Bump.invalid).warned = true := by
  cases b <;> decide

/-- C3 counterexample. The claim predicts minor whenever no property was
removed, no shared property changed shape, some property was added and
no added name is newly required. It fails at two inputs. First, the old
document has one optional property a and the new document keeps a
unchanged, adds an optional property b, and newly requires the existing
property a: every hypothesis of the claim holds and the added name b is
not in the new required set, yet classify returns major, because the
required-escalation loop of the source fires on any newly required name,
added or not. Second, an empty old document gains the single optional
property named toString with nothing required: nothing is removed,
nothing is shared by ownership and nothing is required, yet classify
returns major, because the in guard of the shared loop finds toString on
Object.prototype, treats the property as shared, and its inherited value
never serialises like a parsed value. -/
theorem C3_counterexample :
    classify (Option.some ⟨Option.some [("a", Js.str ("t"))], Option.some []⟩)
      ⟨Option.some [("a", Js.str ("t")), ("b", Js.str ("u"))], Option.some ["a"]⟩ =
      Except.ok Severity.major ∧
    ((keysOf [("a", Js.str ("t"))]).any fun k =>
      !hasKey [("a", Js.str ("t")), ("b", Js.str ("u"))] k) = false ∧
    ((keysOf [("a", Js.str ("t")), ("b", Js.str ("u"))]).all fun k =>
      !hasKey [("a", Js.str ("t"))] k
      || (lookupD [("a", Js.str ("t"))] k == lookupD [("a", Js.str ("t")), ("b", Js.str ("u"))] k)) = true ∧
    ((keysOf [("a", Js.str ("t")), ("b", Js.str ("u"))]).filter fun k =>
      !hasKey [("a", Js.str ("t"))] k) = ["b"] ∧
    (["a"] : List String).contains ("b") = false ∧
    classify (Option.some ⟨Option.some [], Option.some []⟩)
      ⟨Option.some [("toString", Js.str ("t"))], Option.some []⟩ =
      Except.ok Severity.major ∧
    keysOf ([] : List (String × Js)) = [] ∧
    ((keysOf [("toString", Js.str ("t"))]).filter fun k =>
      !hasKey ([] : List (String × Js)) k) = ["toString"] ∧
    ([] : List String).contains ("toString") = false ∧
    Except.ok Severity.major ≠ (Except.ok Severity.minor : Except String Severity) := by
  decide

/-- C3 amended. For every pair of documents with the old present, where
the in-based removal check finds every old own key, no property shared
by ownership changed in shape, no own key of the new mapping is a
prototype name unless it is also an own key of the old mapping, and the
set of added property names — own in new, not found in old by the in
test — is non-empty, classify returns major exactly when some name of
the new required set is not in the old required set or some added name
is in the new required set, and minor otherwise; in particular adding a
non-prototype name to properties alone, with the required set not
growing, yields minor, and adding it to both properties and required
yields major. -/
theorem C3_additive (o n : SchemaDoc)
    (hnorem : ((keysOf (o.properties.getD [])).any fun k =>
      !jsIn (n.properties.getD []) k) = false)
    (hnoshape : ((keysOf (n.properties.getD [])).all fun k =>
      !hasKey (o.properties.getD []) k
      || (lookupD (o.properties.getD []) k == lookupD (n.properties.getD []) k)) = true)
    (hproto : ((keysOf (n.properties.getD [])).all fun k =>
      hasKey (o.properties.getD []) k || !protoKeys.contains k) = true)
    (hadded : ((keysOf (n.properties.getD [])).filter fun k =>
      !jsIn (o.properties.getD []) k).isEmpty = false) :
    classify (Option.some o) n =
      (if ((n.required.getD []).any fun k => !(o.required.getD []).contains k)
          || (((keysOf (n.properties.getD [])).filter fun k =>
              !jsIn (o.properties.getD []) k).any fun k => (n.required.getD []).contains k)
        then Except.ok Severity.major
        else Except.ok Severity.minor) := by
  have hscan : scanShared (o.properties.getD []) (n.properties.getD [])
      (keysOf (n.properties.getD [])) = Except.ok false := by
    apply scanShared_ok_of
    intro k hk hkj
    have hp := List.all_eq_true.mp hproto k hk
    have hown : hasKey (o.properties.getD []) k = true := by
      cases hhk : hasKey (o.properties.getD []) k
      · rw [hhk] at hp
        simp only [Bool.false_or, Bool.not_eq_eq_eq_not, Bool.not_true] at hp
        have : jsIn (o.properties.getD []) k = false := by
          simp [jsIn, hasKey] at hhk ⊢
          exact ⟨hhk, by simpa using hp⟩
        rw [this] at hkj
        cases hkj
      · rfl
    refine ⟨hown, ?_⟩
    have h1 := List.all_eq_true.mp hnoshape k hk
    rw [hown] at h1
    simp only [Bool.not_true, Bool.false_or, beq_iff_eq] at h1
    rw [h1]
    exact checkShared1_self _
  simp only [classify, hscan, hnorem, Bool.false_eq_true, if_false]
  have hAS : afterScan (o.properties.getD []) (n.properties.getD [])
      (o.required.getD []) (n.required.getD []) =
      (if ((n.required.getD []).any fun k => !(o.required.getD []).contains k)
          || (((keysOf (n.properties.getD [])).filter fun k =>
              !jsIn (o.properties.getD []) k).any fun k => (n.required.getD []).contains k)
        then Severity.major else Severity.minor) := by
    unfold afterScan
    cases ha : ((n.required.getD []).any fun k => !(o.required.getD []).contains k)
    · simp only [ha, Bool.false_eq_true, if_false, Bool.false_or]
      rw [hadded]
      cases hb : (((keysOf (n.properties.getD [])).filter fun k =>
          !jsIn (o.properties.getD []) k).any fun k => (n.required.getD []).contains k) <;>
        simp [hb]
    · simp [ha]
  rw [hAS, apply_ite Except.ok]

/-- C3 witness. The amended statement applied to a document gaining one
optional non-prototype property with an unchanged required set, where it
evaluates to minor. -/
theorem C3_additive_witness :
    classify (Option.some ⟨Option.some [("a", Js.str ("t"))], Option.none⟩)
      ⟨Option.some [("a", Js.str ("t")), ("b", Js.str ("u"))], Option.none⟩ =
      (if (((Option.none : Option (List String)).getD []).any fun k =>
            !((Option.none : Option (List String)).getD []).contains k)
          || (((keysOf ((Option.some [("a", Js.str ("t")), ("b", Js.str ("u"))] :
                Option (List (String × Js))).getD [])).filter fun k =>
              !jsIn ((Option.some [("a", Js.str ("t"))] :
                Option (List (String × Js))).getD []) k).any fun k =>
                ((Option.none : Option (List String)).getD []).contains k)
        then Except.ok Severity.major
        else Except.ok Severity.minor) :=
  C3_additive ⟨Option.some [("a", Js.str ("t"))], Option.none⟩
    ⟨Option.some [("a", Js.str ("t")), ("b", Js.str ("u"))], Option.none⟩
    (by decide) (by decide) (by decide) (by decide)

/-- C4 counterexample. The claim states that removal of any property
name present in the old mapping and absent from the new one yields
major. The source tests absence with the in operator, which walks the
prototype chain: at this input the old document owns the single property
named toString and the new document owns nothing, yet the removal loop
never fires because toString is a property name of Object.prototype, and
classify returns patch, not the claimed major. -/
theorem C4_counterexample :
    classify (Option.some ⟨Option.some [("toString", Js.str ("t"))], Option.none⟩)
      ⟨Option.some [], Option.none⟩ = Except.ok Severity.patch ∧
    keysOf [("toString", Js.str ("t"))] = ["toString"] ∧
    hasKey ([] : List (String × Js)) ("toString") = false ∧
    Except.ok Severity.patch ≠ (Except.ok Severity.major : Except String Severity) := by
  decide

/-- C4 amended. Removal dominates away from prototype names: whenever
some key of the old property mapping fails the in test on the new
mapping — it is neither an own key of the new mapping nor one of the
property names of Object.prototype — classify returns major, for every
old and new document, hence regardless of whether the removed field was
required and of any other simultaneous change. -/
theorem C4_removal (o n : SchemaDoc)
    (h : ((keysOf (o.properties.getD [])).any fun k => !jsIn (n.properties.getD []) k) = true) :
    classify (Option.some o) n = Except.ok Severity.major := by
  simp [classify, h]

/-- C4 witness. The amended removal theorem applied to a document losing
its only property, whose name does not collide with the prototype. -/
theorem C4_witness :
    ((keysOf ((Option.some [("a", Js.null)] : Option (List (String × Js))).getD [])).any
      fun k => !jsIn ((Option.some [] : Option (List (String × Js))).getD []) k) = true ∧
    classify (Option.some ⟨Option.some [("a", Js.null)], Option.none⟩)
      ⟨Option.some [], Option.none⟩ = Except.ok Severity.major :=
  ⟨by decide, C4_removal ⟨Option.some [("a", Js.null)], Option.none⟩
    ⟨Option.some [], Option.none⟩ (by decide)⟩

/-- C5. Enum widening is non-breaking: for two documents that are
identical except in the shape of one property, where both shapes carry
an enum array, every old enum element occurs in the new enum set and the
new set size is at least the old set size, classify returns patch, a
severity not higher than minor, so the widened property by itself never
yields major. -/
theorem C5_enum_widening (pre post : List (String × Js)) (k : String) (o n : Js)
    (req : Option (List String)) (oxs nxs : JsList)
    (ho : jsMember o ("enum") = Except.ok (Option.some (Js.arr oxs)))
    (hn : jsMember n ("enum") = Except.ok (Option.some (Js.arr nxs)))
    (hsup : (oxs.toList.all fun v => nxs.toList.any fun w => svzCross v w) = true)
    (hsize : jsSetSize oxs.toList ≤ jsSetSize nxs.toList) :
    classify (Option.some ⟨Option.some (pre ++ (k, o) :: post), req⟩)
      ⟨Option.some (pre ++ (k, n) :: post), req⟩ = Except.ok Severity.patch := by
  have hkeys : keysOf (pre ++ (k, o) :: post) = keysOf (pre ++ (k, n) :: post) := by
    simp [keysOf]
  have hscan : scanShared (pre ++ (k, o) :: post) (pre ++ (k, n) :: post)
      (keysOf (pre ++ (k, n) :: post)) = Except.ok false := by
    apply scanShared_ok_of
    intro j hj hkj
    refine ⟨?_, ?_⟩
    · apply hasKey_of_mem_keys
      rw [hkeys]
      exact hj
    · rcases lookupD_append_middle pre post k o n j with h | ⟨h1, h2⟩
      · rw [h]; exact checkShared1_self _
      · rw [h1, h2]; exact checkShared1_widen o n oxs nxs ho hn hsup hsize
  have hrem : ((keysOf (pre ++ (k, o) :: post)).any fun j =>
      !jsIn (pre ++ (k, n) :: post) j) = false := by
    rw [hkeys]
    exact any_not_jsIn_self (pre ++ (k, n) :: post)
  simp only [classify, Option.getD_some, hrem, Bool.false_eq_true, if_false, hscan]
  rw [afterScan_same_keys _ _ _ hkeys]

/-- C5 witness. The widening theorem applied to one property whose enum
grows from the two strings A and B to the three strings A, B and C. -/
theorem C5_witness :
    classify (Option.some ⟨Option.some [("x", Js.obj (JsObj.cons ("enum")
        (Js.arr (JsList.cons (Js.str ("A")) (JsList.cons (Js.str ("B")) JsList.nil)))
        JsObj.nil))], Option.none⟩)
      ⟨Option.some [("x", Js.obj (JsObj.cons ("enum")
        (Js.arr (JsList.cons (Js.str ("A")) (JsList.cons (Js.str ("B"))
          (JsList.cons (Js.str ("C")) JsList.nil))))
        JsObj.nil))], Option.none⟩ = Except.ok Severity.patch :=
  C5_enum_widening [] [] "x"
    (Js.obj (JsObj.cons ("enum")
      (Js.arr (JsList.cons (Js.str ("A")) (JsList.cons (Js.str ("B")) JsList.nil))) JsObj.nil))
    (Js.obj (JsObj.cons ("enum")
      (Js.arr (JsList.cons (Js.str ("A")) (JsList.cons (Js.str ("B"))
        (JsList.cons (Js.str ("C")) JsList.nil)))) JsObj.nil))
    Option.none
    (JsList.cons (Js.str ("A")) (JsList.cons (Js.str ("B")) JsList.nil))
    (JsList.cons (Js.str ("A")) (JsList.cons (Js.str ("B")) (JsList.cons (Js.str ("C")) JsList.nil)))
    (by decide) (by decide) (by decide) (by decide)

/-- C6. Identical documents yield patch: for every present schema
document, classify of the document against itself returns patch, so two
documents equal under the structural equality the source compares with
never classify above patch. -/
theorem C6_classify_self (X : SchemaDoc) :
    classify (Option.some X) X = Except.ok Severity.patch := by
  simp only [classify]
  rw [any_not_jsIn_self]
  rw [scanShared_ok_of _ _ _
    (fun k hk _ => ⟨hasKey_of_mem_keys _ _ hk, checkShared1_self _⟩)]
  rw [afterScan_same_keys _ _ _ rfl]
  simp

/-- C7. The aggregation is exactly the maximum under the order none,
patch, minor, major: the empty fold is none; a two-element fold has the
rank of the larger element; the fold step is associative and
commutative; a non-empty fold returns an element of the list that every
element ranks no higher than; and permuting the severities never changes
the fold. -/
theorem C7_aggregate (a : Severity) (l : List Severity) (l1 l2 : List Severity)
    (hperm : l1.Perm l2) :
    aggregate [] = Severity.none ∧
    (∀ x y : Severity, rank (aggregate [x, y]) = Nat.max (rank x) (rank y)) ∧
    (∀ x y z : Severity, bumpFrom (bumpFrom x y) z = bumpFrom x (bumpFrom y z)) ∧
    (∀ x y : Severity, bumpFrom x y = bumpFrom y x) ∧
    aggregate (a :: l) ∈ a :: l ∧
    (∀ s ∈ a :: l, rank s ≤ rank (aggregate (a :: l))) ∧
    aggregate l1 = aggregate l2 := by
  refine ⟨rfl, by decide, by decide, by decide, ?_, ?_, ?_⟩
  · show (a :: l).foldl bumpFrom Severity.none ∈ a :: l
    simp only [List.foldl_cons, bumpFrom_none_left]
    rcases foldl_bumpFrom_mem l a with h | h
    · rw [h]
      exact List.mem_cons_self a l
    · exact List.mem_cons_of_mem a h
  · intro s hs
    show rank s ≤ rank ((a :: l).foldl bumpFrom Severity.none)
    simp only [List.foldl_cons, bumpFrom_none_left]
    rcases List.mem_cons.mp hs with h | h
    · subst h
      exact rank_le_foldl_bumpFrom l s
    · exact rank_mem_le_foldl_bumpFrom l a s h
  · exact hperm.foldl_eq' (fun x _ y _ z => bumpFrom_right_comm x y z) Severity.none

/-- C7 witness. The aggregation theorem applied to the two orders of a
minor and a major record, which agree. -/
theorem C7_witness :
    ([Severity.minor, Severity.major].Perm [Severity.major, Severity.minor]) ∧
    aggregate [Severity.minor, Severity.major] = aggregate [Severity.major, Severity.minor] :=
  ⟨by decide,
    (C7_aggregate Severity.none [] [Severity.minor, Severity.major]
      [Severity.major, Severity.minor] (by decide)).2.2.2.2.2.2⟩

/-- C8. New file yields minor: with an absent old revision classify
returns minor for every new document, a handled case and never an
error. -/
theorem C8_new_file (d : SchemaDoc) : classify Option.none d = Except.ok Severity.minor := rfl

/-- C9 counterexample. The claim states that classify never throws for
arbitrary structural field schemas. At this input the old document maps
the field x to the JSON null and the new document changes its shape, so
the widening test of the source reads the enum member of null and
throws a TypeError, which refutes the claim. -/
theorem C9_counterexample :
    classify (Option.some ⟨Option.some [("x", Js.null)], Option.none⟩)
      ⟨Option.some [("x", Js.num 5)], Option.none⟩ =
      Except.error ("TypeError: cannot read properties of null") := by decide

/-- C9 amended. Totality holds away from null field schemas: for
documents none of whose property values is the JSON null, classify with
a present old document returns a severity and does not throw; classify
with an absent old document always returns a severity; and the decision
block is total, yielding a pass or fail status for every required
severity and bump. -/
theorem C9_total (o n m : SchemaDoc) (r : Severity) (b : Bump)
    (hO : ((o.properties.getD []).all fun p => !(p.2 == Js.null)) = true)
    (hN : ((n.properties.getD []).all fun p => !(p.2 == Js.null)) = true) :
    (classify (Option.some o) n).isOk = true ∧
    (classify Option.none m).isOk = true ∧
    ((Decide r b).status = Status.pass ∨ (Decide r b).status = Status.fail) := by
  refine ⟨?_, rfl, ?_⟩
  · have hscan : (scanShared (o.properties.getD []) (n.properties.getD [])
        (keysOf (n.properties.getD []))).isOk = true := by
      apply scanShared_isOk
      intro k hk hkey
      apply checkShared1_isOk
      · have hmem := lookupD_mem _ _ hkey
        have := List.all_eq_true.mp hO _ hmem
        simpa using this
      · have hmem := lookupD_mem _ _ (hasKey_of_mem_keys _ _ hk)
        have := List.all_eq_true.mp hN _ hmem
        simpa using this
    simp only [classify]
    split
    · rfl
    · cases hsc : scanShared (o.properties.getD []) (n.properties.getD [])
        (keysOf (n.properties.getD [])) with
      | error e =>
        rw [hsc] at hscan
        simp [Except.isOk, Except.toBool] at hscan
      | ok bb => cases bb <;> rfl
  · cases hst : (Decide r b).status
    · exact Or.inl rfl
    · exact Or.inr rfl

/-- C9 witness. The amended totality applied to two single-property
documents with non-null field schemas. -/
theorem C9_total_witness :
    (classify (Option.some ⟨Option.some [("x", Js.num 5)], Option.none⟩)
      ⟨Option.some [("x", Js.num 6)], Option.none⟩).isOk = true ∧
    (classify Option.none ⟨Option.none, Option.none⟩).isOk = true ∧
    ((Decide Severity.major Bump.invalid).status = Status.pass ∨
      (Decide Severity.major Bump.invalid).status = Status.fail) :=
  C9_total ⟨Option.some [("x", Js.num 5)], Option.none⟩
    ⟨Option.some [("x", Js.num 6)], Option.none⟩ ⟨Option.none, Option.none⟩
    Severity.major Bump.invalid (by decide) (by decide)

/-- C10. With a present old document classify never returns the severity
none, and any severity it does return is patch, minor or major;
consequently the required fold over a non-empty list of severities none
of which is none has rank at least the rank of patch, while the fold of
the empty list is none. -/
theorem C10_positive (o n : SchemaDoc) (a : Severity) (l : List Severity)
    (hall : ∀ s ∈ a :: l, s ≠ Severity.none) :
    classify (Option.some o) n ≠ Except.ok Severity.none ∧
    (∀ s : Severity, classify (Option.some o) n = Except.ok s →
      s = Severity.patch ∨ s = Severity.minor ∨ s = Severity.major) ∧
    rank Severity.patch ≤ rank (aggregate (a :: l)) ∧
    aggregate [] = Severity.none := by
  refine ⟨classify_present_ne_none o n, fun s hs => classify_present_result o n s hs, ?_, rfl⟩
  show rank Severity.patch ≤ rank ((a :: l).foldl bumpFrom Severity.none)
  simp only [List.foldl_cons, bumpFrom_none_left]
  have h1 : rank Severity.patch ≤ rank a := by
    have := hall a (List.mem_cons_self a l)
    cases a
    · exact absurd rfl this
    · exact Nat.le_refl _
    · exact by decide
    · exact by decide
  exact Nat.le_trans h1 (rank_le_foldl_bumpFrom l a)

/-- C10 witness. The theorem applied to a pair of empty documents and
the one-element severity list containing patch. -/
theorem C10_witness :
    (∀ s ∈ [Severity.patch], s ≠ Severity.none) ∧
    (classify (Option.some ⟨Option.none, Option.none⟩) ⟨Option.none, Option.none⟩ ≠
        Except.ok Severity.none ∧
      (∀ s : Severity, classify (Option.some ⟨Option.none, Option.none⟩)
          ⟨Option.none, Option.none⟩ = Except.ok s →
        s = Severity.patch ∨ s = Severity.minor ∨ s = Severity.major) ∧
      rank Severity.patch ≤ rank (aggregate [Severity.patch]) ∧
      aggregate [] = Severity.none) :=
  ⟨by decide, C10_positive ⟨Option.none, Option.none⟩ ⟨Option.none, Option.none⟩
    Severity.patch [] (by decide)⟩

end ContractsCheckDiff
